import Mathlib

/-!
Shallow embedding of the line-item preparation scripts: JavaScript values,
the parameter aggregator (loadParametersFromJson), the column mapper and
table builder (buildDataTableFromParamsDynamic), the record flattener
(formatOLIs), and the revision computation / stamping / submission pipeline
(getHighestRevisionNumber, processOliRecords, createLineItems).
-/

namespace AppScript

/-- JavaScript runtime values as manipulated by the scripts: JSON values
together with the two non-JSON primitives that arise at runtime
(undefined, from absent properties and cells, and NaN, from failed numeric
coercions).  Numbers are modelled as rationals; IEEE rounding is out of
scope.  Objects are ordered key/value lists, matching the insertion-order
semantics of JavaScript objects. -/
inductive JValue : Type where
  | str (s : String)
  | num (q : ℚ)
  | boolv (b : Bool)
  | nullv
  | undefined
  | nan
  | arr (elems : List JValue)
  | obj (fields : List (String × JValue))

/-- A JavaScript object: key/value pairs in insertion order.  Objects built
by the scripts always have pairwise distinct keys. -/
abbrev Obj := List (String × JValue)

/-- First binding of a key in an object; none models an absent property. -/
def getEntry : Obj → String → Option JValue
  | [], _ => none
  | (k', v) :: rest, k => if k' = k then some v else getEntry rest k

/-- Property read, as in JavaScript: an absent key reads as undefined. -/
def getProp (o : Obj) (k : String) : JValue :=
  (getEntry o k).getD JValue.undefined

/-- The hasOwnProperty test. -/
def hasKey (o : Obj) (k : String) : Bool :=
  (getEntry o k).isSome

/-- Property assignment, as in JavaScript: an existing key is updated in
place (keeping its position in insertion order), a new key is appended. -/
def setKey : Obj → String → JValue → Obj
  | [], k, v => [(k, v)]
  | (k', w) :: rest, k, v =>
    if k' = k then (k, v) :: rest else (k', w) :: setKey rest k v

/-- Assign a list of key/value pairs into an object, left to right.  This is
both the object-spread operation and the shape of the copy loops in the
scripts. -/
def setAll (acc : Obj) (ps : List (String × JValue)) : Obj :=
  ps.foldl (fun a kv => setKey a kv.1 kv.2) acc

/-- JavaScript truthiness. -/
def truthy : JValue → Bool
  | .str s => !(s == "")
  | .num q => !(q == 0)
  | .boolv b => b
  | .nullv => false
  | .undefined => false
  | .nan => false
  | .arr _ => true
  | .obj _ => true

/-- The Array.isArray test. -/
def isArr : JValue → Bool
  | .arr _ => true
  | _ => false

/-- The test used by the flattener: typeof v === "object" and v !== null.
Arrays satisfy it; null is explicitly excluded by the source. -/
def isObjectLike : JValue → Bool
  | .obj _ => true
  | .arr _ => true
  | _ => false

mutual

/-- The String(...) conversion.  Numbers with denominator 1 print as JS
integers; non-integer rationals print in Lean notation (the scripts only
stringify strings and simple cells, so this difference is never exercised
by the claims). -/
def jsString : JValue → String
  | .str s => s
  | .num q => if q.den = 1 then toString q.num else toString q
  | .boolv b => if b then "true" else "false"
  | .nullv => "null"
  | .undefined => "undefined"
  | .nan => "NaN"
  | .arr es => String.intercalate "," (jsStringList es)
  | .obj _ => "[object Object]"

/-- Array elements joined by Array.prototype.toString: null and undefined
elements print as the empty string. -/
def jsStringList : List JValue → List String
  | [] => []
  | .nullv :: vs => "" :: jsStringList vs
  | .undefined :: vs => "" :: jsStringList vs
  | v :: vs => jsString v :: jsStringList vs

end

/-- The String.prototype.trim operation: strip leading and trailing
whitespace. -/
def jsTrim (s : String) : String :=
  String.mk (((s.data.dropWhile Char.isWhitespace).reverse.dropWhile Char.isWhitespace).reverse)

/-- The key/value pairs enumerated by a for..in loop over a value: object
fields in insertion order, array and string indices as decimal strings,
nothing for primitives. -/
def enumPairs : JValue → List (String × JValue)
  | .obj fs => fs
  | .arr es => es.enum.map (fun p => (toString p.1, p.2))
  | .str s => s.data.enum.map (fun p => (toString p.1, JValue.str (String.singleton p.2)))
  | _ => []

/-- Numeric coercion used by arithmetic operators; none models NaN.
Coercion of numeric strings is not modelled (the scripts never multiply or
add string-valued fields on the paths the claims concern). -/
def numVal : JValue → Option ℚ
  | .num q => some q
  | .boolv b => some (if b then 1 else 0)
  | .nullv => some 0
  | _ => none

/-- ToPrimitive for the binary operators: objects and arrays convert via
their string representation, primitives are themselves. -/
def toPrim (v : JValue) : JValue :=
  match v with
  | .obj _ => .str (jsString v)
  | .arr _ => .str (jsString v)
  | w => w

/-- The JavaScript + operator: string concatenation if either primitive
operand is a string, numeric addition otherwise. -/
def jsAdd (a b : JValue) : JValue :=
  match toPrim a, toPrim b with
  | .str s, w => .str (s ++ jsString w)
  | v, .str s => .str (jsString v ++ s)
  | v, w =>
    match numVal v, numVal w with
    | some x, some y => .num (x + y)
    | _, _ => .nan

/-- The JavaScript * operator. -/
def jsMul (a b : JValue) : JValue :=
  match numVal (toPrim a), numVal (toPrim b) with
  | some x, some y => .num (x * y)
  | _, _ => .nan

/-! ## ParameterAggregator: loadParametersFromJson -/

/-- One aggregation step of loadParametersFromJson for a single top-level
key/value pair of a parsed row: an unseen key is stored verbatim; a seen
key whose current value is not an array is wrapped into a one-element array
first; then the new value is pushed. -/
def insertParam (params : Obj) (k : String) (v : JValue) : Obj :=
  match getEntry params k with
  | none => setKey params k v
  | some (.arr l) => setKey params k (.arr (l ++ [v]))
  | some w => setKey params k (.arr [w, v])

/-- Aggregate all top-level pairs of one parsed row, in key order. -/
def insertPairs (params : Obj) (pairs : List (String × JValue)) : Obj :=
  pairs.foldl (fun p kv => insertParam p kv.1 kv.2) params

/-- Aggregate a sequence of parsed parameter objects into a configuration,
as the main loop of loadParametersFromJson does. -/
def aggregateObjects (objs : List (List (String × JValue))) : Obj :=
  objs.foldl insertPairs []

/-- The values carried by a given top-level key across a pair sequence, in
order of appearance. -/
def occVals (k : String) (pairs : List (String × JValue)) : List JValue :=
  (pairs.filter (fun kv => kv.1 == k)).map Prod.snd

/-- The evolution of a single key of the configuration under successive
occurrences: exactly the branch structure of insertParam restricted to one
key. -/
def aggState : Option JValue → List JValue → Option JValue
  | st, [] => st
  | none, v :: vs => aggState (some v) vs
  | some (.arr l), v :: vs => aggState (some (.arr (l ++ [v]))) vs
  | some w, v :: vs => aggState (some (.arr [w, v])) vs

/-- The row loop of loadParametersFromJson: blank cells (after trimming)
are skipped; a cell that fails to parse aborts the whole load with an error
naming the 1-based row number and the parser message; a parsed cell has its
top-level keys aggregated.  The parser is passed in as the JSON.parse
collaborator. -/
def processParamRows (parseJ : String → Except String JValue) :
    List String → Nat → Obj → Except String Obj
  | [], _, params => Except.ok params
  | c :: rest, i, params =>
    let cv := jsTrim c
    if cv = "" then processParamRows parseJ rest (i + 1) params
    else
      match parseJ cv with
      | .ok v => processParamRows parseJ rest (i + 1) (insertPairs params (enumPairs v))
      | .error msg =>
        Except.error ("Error parsing JSON at row " ++ toString (i + 1) ++ ": " ++ msg)

/-- The one-shot header heuristic: if the first cell fails to parse as
JSON, processing starts at the second cell. -/
def startRowOf (parseJ : String → Except String JValue) (cells : List String) : Nat :=
  match cells with
  | [] => 0
  | c0 :: _ =>
    match parseJ (jsTrim c0) with
    | .ok _ => 0
    | .error _ => 1

/-- loadParametersFromJson on the column of raw cell texts (the source
message quotes the sheet name; quotes are omitted here). -/
def loadParametersFromJson (parseJ : String → Except String JValue)
    (cells : List String) : Except String Obj :=
  match cells with
  | [] => Except.error "No data found in JF_SCRIPT_PARAMS sheet."
  | _ :: _ =>
    processParamRows parseJ (cells.drop (startRowOf parseJ cells)) (startRowOf parseJ cells) []

/-! ## ColumnMapper: the mapping loop of buildDataTableFromParamsDynamic -/

/-- One resolved column mapping: the object_api_name value (stored
verbatim, stringified only when used as a record key) and the matched
0-based column index. -/
structure MPair where
  api : JValue
  col : Nat

/-- Property access on an arbitrary configuration item; non-object items
have no properties. -/
def getItemProp (item : JValue) (k : String) : JValue :=
  match item with
  | .obj fs => getProp fs k
  | _ => .undefined

/-- Left-to-right scan of the header for the first cell whose stringified,
trimmed text equals the label, returning its index. -/
def findColAux (label : String) : List JValue → Nat → Option Nat
  | [], _ => none
  | c :: rest, j =>
    if jsTrim (jsString c) = label then some j else findColAux label rest (j + 1)

/-- Index of the first header cell matching a trimmed label. -/
def findCol (header : List JValue) (label : String) : Option Nat :=
  findColAux label header 0

/-- The not-found warning for a label (the source wraps the names in single
quotes; the quotes are omitted here). -/
def warnMsg (label groupKey : String) : String :=
  "Warning: Header label " ++ label ++ " for group " ++ groupKey ++ " not found."

/-- One iteration of the mapping loop: items with a falsy object_label or
object_api_name are skipped outright; otherwise the trimmed stringified
label is scanned for in the header, a match appends a mapping pair, a miss
appends only a warning. -/
def resolveStep (header : List JValue) (groupKey : String)
    (acc : List MPair × List String) (item : JValue) : List MPair × List String :=
  if truthy (getItemProp item "object_label") && truthy (getItemProp item "object_api_name") then
    let labelToFind := jsTrim (jsString (getItemProp item "object_label"))
    match findCol header labelToFind with
    | some j => (acc.1 ++ [⟨getItemProp item "object_api_name", j⟩], acc.2)
    | none => (acc.1, acc.2 ++ [warnMsg labelToFind groupKey])
  else acc

/-- Resolve one grouping key: fold the mapping loop over the normalized
item list, collecting mapping pairs and warnings. -/
def resolveGroup (header : List JValue) (groupKey : String) (items : List JValue) :
    List MPair × List String :=
  items.foldl (resolveStep header groupKey) ([], [])

/-- Normalize a group value to an item list, wrapping non-arrays. -/
def normalizeGroup : JValue → List JValue
  | .arr es => es
  | v => [v]

/-- The declarative per-item result the mapper is claimed to compute: a
mapping pair for the first matching header cell, nothing for skipped or
unmatched items. -/
def resolveItemPair (header : List JValue) (item : JValue) : Option MPair :=
  if truthy (getItemProp item "object_label") && truthy (getItemProp item "object_api_name") then
    (findCol header (jsTrim (jsString (getItemProp item "object_label")))).map
      (fun j => ⟨getItemProp item "object_api_name", j⟩)
  else none

/-- The declarative per-item warning: emitted exactly when the item is not
skipped and its label matches no header cell. -/
def warnOf (header : List JValue) (groupKey : String) (item : JValue) : Option String :=
  if truthy (getItemProp item "object_label") && truthy (getItemProp item "object_api_name") then
    match findCol header (jsTrim (jsString (getItemProp item "object_label"))) with
    | some _ => none
    | none => some (warnMsg (jsTrim (jsString (getItemProp item "object_label"))) groupKey)
  else none

/-- Build the overall mapping: every configuration key except the two
reserved ones is resolved against the header, in configuration order. -/
def buildMapping (params : Obj) (header : List JValue) : List (String × List MPair) :=
  params.foldl
    (fun acc kv =>
      if kv.1 == "Input Sheet" || kv.1 == "Table Header Row" then acc
      else acc ++ [(kv.1, (resolveGroup header kv.1 (normalizeGroup kv.2)).1)])
    []

/-! ## TableBuilder: the row loop of buildDataTableFromParamsDynamic -/

/-- Indexed cell read on a row; a missing index reads as undefined. -/
def getCell (row : List JValue) (i : Nat) : JValue :=
  row.getD i JValue.undefined

/-- The termination test of the row loop: row[0] === "" or row[0] === null.
Strict equality: only a string equals "", only null equals null; in
particular an undefined (absent) cell does not stop the loop. -/
def isStopCell : JValue → Bool
  | .str s => s == ""
  | .nullv => true
  | _ => false

/-- Build one record field group: an empty group writes nothing, a
singleton group writes the cell directly under the stringified api name, a
larger group writes a nested object of all its pairs under the group key. -/
def buildRecordStep (row : List JValue) (rec : Obj) (g : String × List MPair) : Obj :=
  match g.2 with
  | [] => rec
  | [m] => setKey rec (jsString m.api) (getCell row m.col)
  | ms => setKey rec g.1 (JValue.obj
      (ms.foldl (fun o m => setKey o (jsString m.api) (getCell row m.col)) []))

/-- Build the record for one data row across all groups, in mapping
order. -/
def buildRecord (mapping : List (String × List MPair)) (row : List JValue) : Obj :=
  mapping.foldl (buildRecordStep row) []

/-- The top-level key written into a record by one group entry: nothing for
an empty group, the stringified api name for a singleton group, the group
key itself for a larger group. -/
def writesKey (e : String × List MPair) (x : String) : Bool :=
  match e.2 with
  | [] => false
  | [m] => jsString m.api == x
  | _ => e.1 == x

/-- The row loop: stop at the first row whose column-0 cell satisfies the
stop test, otherwise append the row record and continue. -/
def buildTable (mapping : List (String × List MPair)) : List (List JValue) → List Obj
  | [] => []
  | row :: rest =>
    if isStopCell (getCell row 0) then []
    else buildRecord mapping row :: buildTable mapping rest

/-! ## RecordFlattener: formatOLIs -/

/-- One key of the flattening loop: object-like values have their
enumerated pairs hoisted to the top level, other values are copied. -/
def flattenStep (flat : Obj) (kv : String × JValue) : Obj :=
  if isObjectLike kv.2 then setAll flat (enumPairs kv.2)
  else setKey flat kv.1 kv.2

/-- Flatten one record, iterating its keys in insertion order. -/
def flattenRecord (record : Obj) : Obj :=
  record.foldl flattenStep []

/-- formatOLIs: flatten every record. -/
def formatOLIs (oliData : List Obj) : List Obj :=
  oliData.map flattenRecord

/-- All keys that flattening would hoist out of nested object-like values
of a record. -/
def hoistedKeys : Obj → List String
  | [] => []
  | kv :: rest =>
    (if isObjectLike kv.2 then (enumPairs kv.2).map Prod.fst else []) ++ hoistedKeys rest

/-- A record with no nested objects: every top-level value is a non-object
scalar. -/
def scalarOnly (r : Obj) : Prop :=
  ∀ kv ∈ r, isObjectLike kv.2 = false

/-! ## RevisionSynchronizer: getHighestRevisionNumber, stamping, submission -/

/-- A persisted line item of the external store, as far as the revision
query is concerned: its parent opportunity id and its revision number. -/
structure StoreRec where
  parent : String
  version : ℚ

/-- Modelled from the spec: the external store query of
getHighestRevisionNumber (filter on the parent id, order by revision
descending, limit 1) is a collaborator outside this repository; per the
spec it returns at most one record, carrying the maximum revision among
the line items of the parent. -/
def maxRevisionResponse (store : List StoreRec) (oppId : String) : List Obj :=
  match store.filter (fun r => r.parent == oppId) with
  | [] => []
  | m :: rest =>
    [[("Version_Number__c", JValue.num (rest.foldl (fun a r => max a r.version) m.version))]]

/-- The local logic of getHighestRevisionNumber on the query response: 0 if
no records came back, otherwise records[0].Version_Number__c || 0. -/
def getHighestRevisionNumber (records : List Obj) : JValue :=
  match records with
  | [] => .num 0
  | r :: _ =>
    if truthy (getProp r "Version_Number__c") then getProp r "Version_Number__c"
    else .num 0

/-- getHighestRevisionNumber end to end against the modelled store. -/
def getHighestRevisionFromStore (store : List StoreRec) (oppId : String) : JValue :=
  getHighestRevisionNumber (maxRevisionResponse store oppId)

/-- The new revision computed by processOliRecords: highest revision + 1. -/
def nextRevision (store : List StoreRec) (oppId : String) : JValue :=
  jsAdd (getHighestRevisionFromStore store oppId) (.num 1)

/-- Step 5 of processOliRecords on one record: set opportunity_id__c,
Active__c = true and Version_Number__c = new revision, in that order. -/
def stampRecord (r : Obj) (oppIdV rev : JValue) : Obj :=
  setKey (setKey (setKey r "opportunity_id__c" oppIdV) "Active__c" (JValue.boolv true))
    "Version_Number__c" rev

/-- The record createLineItems actually transmits for one line item: the
item with opportunity_id__c (re)set, Sales_Discount__c multiplied by 100,
spread over the composite-API attributes tag. -/
def transmitRecord (oppIdV : JValue) (item : Obj) : Obj :=
  setAll [("attributes", JValue.obj [("type", JValue.str "jellyfish_line_item__c")])]
    (setKey (setKey item "opportunity_id__c" oppIdV) "Sales_Discount__c"
      (jsMul (.num 100) (getProp (setKey item "opportunity_id__c" oppIdV) "Sales_Discount__c")))

/-- The record list posted by createLineItems. -/
def createLineItemsRecords (oppIdV : JValue) (lineItems : List Obj) : List Obj :=
  lineItems.map (transmitRecord oppIdV)

/-- Steps 5 and 6 of processOliRecords for one built record: stamp,
flatten, transmit. -/
def submitRecord (oppIdV rev : JValue) (r : Obj) : Obj :=
  transmitRecord oppIdV (flattenRecord (stampRecord r oppIdV rev))

/-- The full submitted batch of a run, given the built table, the parent id
and the modelled store. -/
def processOliSubmit (store : List StoreRec) (oppId : String) (oliData : List Obj) :
    List Obj :=
  oliData.map (submitRecord (.str oppId) (nextRevision store oppId))

/-! ## Basic object lemmas -/

theorem setAll_nil (acc : Obj) : setAll acc [] = acc := rfl

theorem setAll_cons (acc : Obj) (p : String × JValue) (rest : List (String × JValue)) :
    setAll acc (p :: rest) = setAll (setKey acc p.1 p.2) rest := rfl

theorem setKey_cons_self (k : String) (w v : JValue) (rest : Obj) :
    setKey ((k, w) :: rest) k v = (k, v) :: rest := by
  simp [setKey]

theorem setKey_cons_ne (a k : String) (w v : JValue) (rest : Obj) (h : a ≠ k) :
    setKey ((a, w) :: rest) k v = (a, w) :: setKey rest k v := by
  simp [setKey, h]

theorem getEntry_cons_self (k : String) (v : JValue) (rest : Obj) :
    getEntry ((k, v) :: rest) k = some v := by
  simp [getEntry]

theorem getEntry_cons_ne (a k : String) (v : JValue) (rest : Obj) (h : a ≠ k) :
    getEntry ((a, v) :: rest) k = getEntry rest k := by
  simp [getEntry, h]

theorem getEntry_setKey_self (o : Obj) (k : String) (v : JValue) :
    getEntry (setKey o k v) k = some v := by
  induction o with
  | nil => simp [setKey, getEntry]
  | cons kv rest ih =>
    obtain ⟨k', w⟩ := kv
    by_cases h : k' = k
    · subst h
      rw [setKey_cons_self, getEntry_cons_self]
    · rw [setKey_cons_ne _ _ _ _ _ h, getEntry_cons_ne _ _ _ _ h]
      exact ih

theorem getEntry_setKey_ne (o : Obj) (k k' : String) (v : JValue) (h : k ≠ k') :
    getEntry (setKey o k' v) k = getEntry o k := by
  induction o with
  | nil => simp [setKey, getEntry, Ne.symm h]
  | cons kv rest ih =>
    obtain ⟨a, w⟩ := kv
    by_cases ha : a = k'
    · subst ha
      rw [setKey_cons_self, getEntry_cons_ne _ _ _ _ (Ne.symm h),
        getEntry_cons_ne _ _ _ _ (Ne.symm h)]
    · rw [setKey_cons_ne _ _ _ _ _ ha]
      by_cases hk : a = k
      · subst hk
        rw [getEntry_cons_self, getEntry_cons_self]
      · rw [getEntry_cons_ne _ _ _ _ hk, getEntry_cons_ne _ _ _ _ hk]
        exact ih

theorem mem_keys_setKey (o : Obj) (k x : String) (v : JValue) :
    x ∈ (setKey o k v).map Prod.fst ↔ x ∈ o.map Prod.fst ∨ x = k := by
  induction o with
  | nil => simp [setKey]
  | cons kv rest ih =>
    obtain ⟨a, w⟩ := kv
    by_cases ha : a = k
    · subst ha
      rw [setKey_cons_self]
      simp only [List.map_cons, List.mem_cons]
      tauto
    · rw [setKey_cons_ne _ _ _ _ _ ha]
      simp only [List.map_cons, List.mem_cons, ih]
      tauto

theorem nodup_keys_setKey (o : Obj) (k : String) (v : JValue)
    (h : (o.map Prod.fst).Nodup) : ((setKey o k v).map Prod.fst).Nodup := by
  induction o with
  | nil => simp [setKey]
  | cons kv rest ih =>
    obtain ⟨a, w⟩ := kv
    simp only [List.map_cons, List.nodup_cons] at h
    by_cases ha : a = k
    · subst ha
      rw [setKey_cons_self]
      simp only [List.map_cons, List.nodup_cons]
      exact h
    · rw [setKey_cons_ne _ _ _ _ _ ha]
      simp only [List.map_cons, List.nodup_cons]
      refine ⟨?_, ih h.2⟩
      intro hx
      rcases (mem_keys_setKey rest k a v).1 hx with hx | hx
      · exact h.1 hx
      · exact ha hx

theorem setKey_of_not_mem (o : Obj) (k : String) (v : JValue)
    (h : k ∉ o.map Prod.fst) : setKey o k v = o ++ [(k, v)] := by
  induction o with
  | nil => simp [setKey]
  | cons kv rest ih =>
    obtain ⟨a, w⟩ := kv
    simp only [List.map_cons, List.mem_cons] at h
    push_neg at h
    rw [setKey_cons_ne _ _ _ _ _ (Ne.symm h.1), ih h.2]
    simp

theorem mem_setKey (o : Obj) (k : String) (v : JValue) (kv' : String × JValue)
    (h : kv' ∈ setKey o k v) : kv' ∈ o ∨ kv' = (k, v) := by
  induction o with
  | nil => simpa [setKey] using h
  | cons kv rest ih =>
    obtain ⟨a, w⟩ := kv
    by_cases ha : a = k
    · subst ha
      rw [setKey_cons_self] at h
      rcases List.mem_cons.1 h with h | h
      · exact Or.inr h
      · exact Or.inl (List.mem_cons_of_mem _ h)
    · rw [setKey_cons_ne _ _ _ _ _ ha] at h
      rcases List.mem_cons.1 h with h | h
      · exact Or.inl (by simp [h])
      · rcases ih h with h' | h'
        · exact Or.inl (List.mem_cons_of_mem _ h')
        · exact Or.inr h'

theorem getEntry_setAll_of_not_mem (ps : List (String × JValue)) (acc : Obj) (k : String)
    (h : k ∉ ps.map Prod.fst) : getEntry (setAll acc ps) k = getEntry acc k := by
  induction ps generalizing acc with
  | nil => rfl
  | cons p rest ih =>
    simp only [List.map_cons, List.mem_cons] at h
    push_neg at h
    rw [setAll_cons, ih _ h.2, getEntry_setKey_ne _ _ _ _ h.1]

theorem getEntry_setAll_of_mem (ps : List (String × JValue)) (acc : Obj) (k : String)
    (v : JValue) (hnd : (ps.map Prod.fst).Nodup) (h : getEntry ps k = some v) :
    getEntry (setAll acc ps) k = some v := by
  induction ps generalizing acc with
  | nil => simp [getEntry] at h
  | cons p rest ih =>
    obtain ⟨a, w⟩ := p
    simp only [List.map_cons, List.nodup_cons] at hnd
    by_cases ha : a = k
    · subst ha
      rw [getEntry_cons_self] at h
      cases h
      rw [setAll_cons, getEntry_setAll_of_not_mem _ _ _ hnd.1]
      exact getEntry_setKey_self _ _ _
    · rw [getEntry_cons_ne _ _ _ _ ha] at h
      rw [setAll_cons]
      exact ih _ hnd.2 h

theorem mem_setAll (ps : List (String × JValue)) (acc : Obj) (kv' : String × JValue)
    (h : kv' ∈ setAll acc ps) : kv' ∈ acc ∨ kv' ∈ ps := by
  induction ps generalizing acc with
  | nil => exact Or.inl h
  | cons p rest ih =>
    rw [setAll_cons] at h
    rcases ih _ h with h' | h'
    · rcases mem_setKey _ _ _ _ h' with h'' | h''
      · exact Or.inl h''
      · exact Or.inr (by simp [h''])
    · exact Or.inr (List.mem_cons_of_mem _ h')

theorem nodup_keys_setAll (ps : List (String × JValue)) (acc : Obj)
    (h : (acc.map Prod.fst).Nodup) : ((setAll acc ps).map Prod.fst).Nodup := by
  induction ps generalizing acc with
  | nil => exact h
  | cons p rest ih =>
    rw [setAll_cons]
    exact ih _ (nodup_keys_setKey _ _ _ h)

theorem setAll_of_disjoint (ps : List (String × JValue)) (acc : Obj)
    (hd : ∀ p ∈ ps, p.1 ∉ acc.map Prod.fst) (hnd : (ps.map Prod.fst).Nodup) :
    setAll acc ps = acc ++ ps := by
  induction ps generalizing acc with
  | nil => simp [setAll]
  | cons p rest ih =>
    simp only [List.map_cons, List.nodup_cons] at hnd
    rw [setAll_cons, setKey_of_not_mem _ _ _ (hd p (by simp)), ih]
    · simp
    · intro q hq
      rw [List.map_append]
      simp only [List.mem_append, List.map_cons, List.map_nil, List.mem_singleton]
      push_neg
      refine ⟨hd q (List.mem_cons_of_mem _ hq), ?_⟩
      intro he
      exact hnd.1 (he ▸ (List.mem_map.2 ⟨q, hq, rfl⟩))
    · exact hnd.2

theorem setAll_nil_of_nodup (ps : List (String × JValue))
    (hnd : (ps.map Prod.fst).Nodup) : setAll [] ps = ps := by
  simpa using setAll_of_disjoint ps [] (by simp) hnd

/-! ## Aggregation lemmas -/

theorem insertPairs_cons (params : Obj) (p : String × JValue)
    (rest : List (String × JValue)) :
    insertPairs params (p :: rest) = insertPairs (insertParam params p.1 p.2) rest := rfl

theorem insertPairs_append (params : Obj) (l₁ l₂ : List (String × JValue)) :
    insertPairs params (l₁ ++ l₂) = insertPairs (insertPairs params l₁) l₂ :=
  List.foldl_append _ _ _ _

theorem insertParam_eq_setKey (params : Obj) (k : String) (v : JValue) :
    ∃ w, insertParam params k v = setKey params k w := by
  unfold insertParam
  cases hg : getEntry params k with
  | none => exact ⟨v, rfl⟩
  | some u => cases u <;> exact ⟨_, rfl⟩

theorem getEntry_insertParam_ne (params : Obj) (k k₁ : String) (v : JValue)
    (h : k ≠ k₁) : getEntry (insertParam params k₁ v) k = getEntry params k := by
  obtain ⟨w, hw⟩ := insertParam_eq_setKey params k₁ v
  rw [hw, getEntry_setKey_ne _ _ _ _ h]

theorem aggState_nil (st : Option JValue) : aggState st [] = st := by
  rcases st with _ | v
  · rfl
  · cases v <;> rfl

theorem getEntry_insertPairs (pairs : List (String × JValue)) (params : Obj) (k : String) :
    getEntry (insertPairs params pairs) k = aggState (getEntry params k) (occVals k pairs) := by
  induction pairs generalizing params with
  | nil =>
    rw [show occVals k ([] : List (String × JValue)) = [] from rfl, aggState_nil]
    rfl
  | cons p rest ih =>
    obtain ⟨k₁, v⟩ := p
    rw [insertPairs_cons]
    by_cases hk : k₁ = k
    · subst hk
      have hocc : occVals k₁ ((k₁, v) :: rest) = v :: occVals k₁ rest := by
        simp [occVals, List.filter_cons]
      rw [ih, hocc]
      cases hg : getEntry params k₁ with
      | none =>
        have hins : getEntry (insertParam params k₁ v) k₁ = some v := by
          unfold insertParam
          rw [hg]
          exact getEntry_setKey_self _ _ _
        rw [hins]
        rfl
      | some w =>
        cases w with
        | arr l =>
          have hins : getEntry (insertParam params k₁ v) k₁
              = some (JValue.arr (l ++ [v])) := by
            unfold insertParam
            rw [hg]
            exact getEntry_setKey_self _ _ _
          rw [hins]
          rfl
        | str s =>
          have hins : getEntry (insertParam params k₁ v) k₁
              = some (JValue.arr [JValue.str s, v]) := by
            unfold insertParam
            rw [hg]
            exact getEntry_setKey_self _ _ _
          rw [hins]
          rfl
        | num q =>
          have hins : getEntry (insertParam params k₁ v) k₁
              = some (JValue.arr [JValue.num q, v]) := by
            unfold insertParam
            rw [hg]
            exact getEntry_setKey_self _ _ _
          rw [hins]
          rfl
        | boolv b =>
          have hins : getEntry (insertParam params k₁ v) k₁
              = some (JValue.arr [JValue.boolv b, v]) := by
            unfold insertParam
            rw [hg]
            exact getEntry_setKey_self _ _ _
          rw [hins]
          rfl
        | nullv =>
          have hins : getEntry (insertParam params k₁ v) k₁
              = some (JValue.arr [JValue.nullv, v]) := by
            unfold insertParam
            rw [hg]
            exact getEntry_setKey_self _ _ _
          rw [hins]
          rfl
        | undefined =>
          have hins : getEntry (insertParam params k₁ v) k₁
              = some (JValue.arr [JValue.undefined, v]) := by
            unfold insertParam
            rw [hg]
            exact getEntry_setKey_self _ _ _
          rw [hins]
          rfl
        | nan =>
          have hins : getEntry (insertParam params k₁ v) k₁
              = some (JValue.arr [JValue.nan, v]) := by
            unfold insertParam
            rw [hg]
            exact getEntry_setKey_self _ _ _
          rw [hins]
          rfl
        | obj fs =>
          have hins : getEntry (insertParam params k₁ v) k₁
              = some (JValue.arr [JValue.obj fs, v]) := by
            unfold insertParam
            rw [hg]
            exact getEntry_setKey_self _ _ _
          rw [hins]
          rfl
    · have hocc : occVals k ((k₁, v) :: rest) = occVals k rest := by
        simp [occVals, List.filter_cons, hk]
      rw [ih, hocc, getEntry_insertParam_ne _ _ _ _ (fun e => hk e.symm)]

theorem aggregateObjects_eq_flatten (objs : List (List (String × JValue))) :
    aggregateObjects objs = insertPairs [] objs.flatten := by
  suffices h : ∀ params, objs.foldl insertPairs params = insertPairs params objs.flatten by
    exact h []
  induction objs with
  | nil => intro params; rfl
  | cons o rest ih =>
    intro params
    rw [List.foldl_cons, ih, List.flatten_cons, insertPairs_append]

theorem aggState_arr (vs : List JValue) : ∀ l : List JValue,
    aggState (some (JValue.arr l)) vs = some (JValue.arr (l ++ vs)) := by
  induction vs with
  | nil => intro l; simp [aggState]
  | cons v rest ih =>
    intro l
    show aggState (some (JValue.arr (l ++ [v]))) rest = _
    rw [ih]
    simp

theorem aggState_scalar (v : JValue) (w : JValue) (ws : List JValue)
    (hv : isArr v = false) :
    aggState (some v) (w :: ws) = some (JValue.arr (v :: w :: ws)) := by
  cases v with
  | arr l => simp [isArr] at hv
  | str s =>
    show aggState (some (JValue.arr [JValue.str s, w])) ws = _
    rw [aggState_arr]
    rfl
  | num q =>
    show aggState (some (JValue.arr [JValue.num q, w])) ws = _
    rw [aggState_arr]
    rfl
  | boolv b =>
    show aggState (some (JValue.arr [JValue.boolv b, w])) ws = _
    rw [aggState_arr]
    rfl
  | nullv =>
    show aggState (some (JValue.arr [JValue.nullv, w])) ws = _
    rw [aggState_arr]
    rfl
  | undefined =>
    show aggState (some (JValue.arr [JValue.undefined, w])) ws = _
    rw [aggState_arr]
    rfl
  | nan =>
    show aggState (some (JValue.arr [JValue.nan, w])) ws = _
    rw [aggState_arr]
    rfl
  | obj fs =>
    show aggState (some (JValue.arr [JValue.obj fs, w])) ws = _
    rw [aggState_arr]
    rfl

theorem processParamRows_all_ok (parseJ : String → Except String JValue) :
    ∀ (cells : List String) (objs : List (List (String × JValue))) (i : Nat) (params : Obj),
    cells.map (fun c => parseJ (jsTrim c)) = objs.map (fun fs => Except.ok (JValue.obj fs)) →
    (∀ c ∈ cells, jsTrim c ≠ "") →
    processParamRows parseJ cells i params = Except.ok (objs.foldl insertPairs params) := by
  intro cells
  induction cells with
  | nil =>
    intro objs i params hmap _
    rcases objs with _ | ⟨o, objs'⟩
    · rfl
    · simp at hmap
  | cons c rest ih =>
    intro objs i params hmap hnb
    rcases objs with _ | ⟨o, objs'⟩
    · simp at hmap
    · simp only [List.map_cons, List.cons.injEq] at hmap
      have hc : jsTrim c ≠ "" := hnb c (by simp)
      show (if jsTrim c = "" then _ else _) = _
      rw [if_neg hc, hmap.1]
      have := ih objs' (i + 1) (insertPairs params (enumPairs (JValue.obj o))) hmap.2
        (fun c' hc' => hnb c' (List.mem_cons_of_mem _ hc'))
      simpa [enumPairs] using this

/-! ## Claim C1 -/

/-- C1 (amended): in the aggregation performed by loadParametersFromJson, a
top-level key whose first occurrence value is not itself an array and that
occurs N > 1 times yields the array of its N occurrence values in insertion
order, a key occurring exactly once yields its value unwrapped, and a load
whose cells (after the one-shot header skip) are non-blank and parse to the
given objects returns exactly this aggregation.  (Amendment: when the first
occurrence value is itself an array, later occurrences are appended to that
array, so its length is not the occurrence count N.) -/
theorem param_key_aggregation
    (objs : List (List (String × JValue))) (k : String) (v : JValue) (vs : List JValue)
    (hocc : occVals k objs.flatten = v :: vs) :
    (vs = [] → getEntry (aggregateObjects objs) k = some v)
    ∧ (vs ≠ [] → isArr v = false →
        getEntry (aggregateObjects objs) k = some (JValue.arr (v :: vs)))
    ∧ (∀ (parseJ : String → Except String JValue) (cells : List String),
        (cells.drop (startRowOf parseJ cells)).map (fun c => parseJ (jsTrim c))
          = objs.map (fun fs => Except.ok (JValue.obj fs)) →
        (∀ c ∈ cells.drop (startRowOf parseJ cells), jsTrim c ≠ "") →
        cells ≠ [] →
        loadParametersFromJson parseJ cells = Except.ok (aggregateObjects objs)) := by
  have hagg : getEntry (aggregateObjects objs) k = aggState none (v :: vs) := by
    rw [aggregateObjects_eq_flatten, getEntry_insertPairs, hocc]
    rfl
  refine ⟨?_, ?_, ?_⟩
  · intro hvs
    subst hvs
    rw [hagg]
    show aggState (some v) [] = some v
    exact aggState_nil _
  · intro hvs hv
    rcases vs with _ | ⟨w, ws⟩
    · exact absurd rfl hvs
    · rw [hagg]
      show aggState (some v) (w :: ws) = _
      exact aggState_scalar v w ws hv
  · intro parseJ cells hmap hnb hne
    rcases cells with _ | ⟨c0, rest⟩
    · exact absurd rfl hne
    · show processParamRows parseJ ((c0 :: rest).drop (startRowOf parseJ (c0 :: rest)))
        (startRowOf parseJ (c0 :: rest)) [] = _
      rw [processParamRows_all_ok parseJ _ objs _ [] hmap hnb]
      rfl

/-- C1 counterexample: the claim as stated fails when a key first occurs
with an array value.  Here the key occurs N = 2 times but aggregation
yields a 3-element array (the later occurrence is pushed onto the first
value), not a 2-element list of the occurrence values. -/
theorem param_key_aggregation_cex :
    getEntry (aggregateObjects
        [[("k", JValue.arr [JValue.num 1, JValue.num 2])], [("k", JValue.num 3)]]) "k"
      = some (JValue.arr [JValue.num 1, JValue.num 2, JValue.num 3])
    ∧ [JValue.num 1, JValue.num 2, JValue.num 3].length ≠ 2 :=
  ⟨rfl, by decide⟩

/-- Witness for C1: a singly occurring key stays scalar, a doubly occurring
scalar-first key becomes the two-element array, and a concrete load with a
header cell returns the aggregation. -/
theorem param_key_aggregation_witness :
    getEntry (aggregateObjects [[("k", JValue.num 1)]]) "k" = some (JValue.num 1)
    ∧ getEntry (aggregateObjects [[("k", JValue.num 1)], [("k", JValue.num 2)]]) "k"
        = some (JValue.arr [JValue.num 1, JValue.num 2])
    ∧ loadParametersFromJson
        (fun s => if s = "A" then Except.ok (JValue.obj [("k", JValue.num 1)])
          else Except.error "bad")
        ["x", "A"]
      = Except.ok (aggregateObjects [[("k", JValue.num 1)]]) :=
  ⟨(param_key_aggregation [[("k", JValue.num 1)]] "k" (JValue.num 1) [] rfl).1 rfl,
   (param_key_aggregation [[("k", JValue.num 1)], [("k", JValue.num 2)]] "k"
      (JValue.num 1) [JValue.num 2] rfl).2.1 (List.cons_ne_nil _ _) rfl,
   (param_key_aggregation [[("k", JValue.num 1)]] "k" (JValue.num 1) [] rfl).2.2
     _ _ rfl (by decide) (by simp)⟩

/-! ## Claim C8 -/

theorem processParamRows_error (parseJ : String → Except String JValue) (msg : String) :
    ∀ (pre : List String) (c : String) (rest : List String) (i : Nat) (params : Obj),
    (∀ c' ∈ pre, jsTrim c' = "" ∨ ∃ v, parseJ (jsTrim c') = Except.ok v) →
    jsTrim c ≠ "" →
    parseJ (jsTrim c) = Except.error msg →
    processParamRows parseJ (pre ++ c :: rest) i params
      = Except.error ("Error parsing JSON at row " ++ toString (i + pre.length + 1)
          ++ ": " ++ msg) := by
  intro pre
  induction pre with
  | nil =>
    intro c rest i params _ hc hmsg
    show (if jsTrim c = "" then _ else _) = _
    rw [if_neg hc, hmsg]
    simp
  | cons c' pre' ih =>
    intro c rest i params hpre hc hmsg
    rcases hpre c' (by simp) with hblank | ⟨v, hok⟩
    · show (if jsTrim c' = "" then _ else _) = _
      rw [if_pos hblank]
      simp only [List.append_eq]
      rw [ih c rest (i + 1) params (fun x hx => hpre x (List.mem_cons_of_mem _ hx)) hc hmsg]
      have h3 : i + 1 + pre'.length + 1 = i + (c' :: pre').length + 1 := by
        simp only [List.length_cons]
        omega
      rw [h3]
    · show (if jsTrim c' = "" then _ else _) = _
      by_cases hblank : jsTrim c' = ""
      · rw [if_pos hblank]
        simp only [List.append_eq]
        rw [ih c rest (i + 1) params (fun x hx => hpre x (List.mem_cons_of_mem _ hx)) hc hmsg]
        have h3 : i + 1 + pre'.length + 1 = i + (c' :: pre').length + 1 := by
          simp only [List.length_cons]
          omega
        rw [h3]
      · rw [if_neg hblank, hok]
        simp only [List.append_eq]
        rw [ih c rest (i + 1) (insertPairs params (enumPairs v))
            (fun x hx => hpre x (List.mem_cons_of_mem _ hx)) hc hmsg]
        have h3 : i + 1 + pre'.length + 1 = i + (c' :: pre').length + 1 := by
          simp only [List.length_cons]
          omega
        rw [h3]

/-- C8: if some cell after the one-shot header skip is non-blank and fails
to parse as JSON, while every earlier processed cell is blank or parses,
then loadParametersFromJson returns an error (no configuration) whose
message carries the 1-based row number of the offending cell and the
underlying parser message. -/
theorem parse_failure_aborts_load
    (parseJ : String → Except String JValue) (cells pre rest : List String)
    (c : String) (msg : String)
    (hsplit : cells.drop (startRowOf parseJ cells) = pre ++ c :: rest)
    (hpre : ∀ c' ∈ pre, jsTrim c' = "" ∨ ∃ v, parseJ (jsTrim c') = Except.ok v)
    (hc : jsTrim c ≠ "")
    (hmsg : parseJ (jsTrim c) = Except.error msg) :
    loadParametersFromJson parseJ cells
      = Except.error ("Error parsing JSON at row "
          ++ toString (startRowOf parseJ cells + pre.length + 1) ++ ": " ++ msg) := by
  rcases cells with _ | ⟨c0, rest0⟩
  · simp [startRowOf] at hsplit
  · show processParamRows parseJ ((c0 :: rest0).drop (startRowOf parseJ (c0 :: rest0)))
      (startRowOf parseJ (c0 :: rest0)) [] = _
    rw [hsplit, processParamRows_error parseJ msg pre c rest _ [] hpre hc hmsg]

/-- Witness for C8: with a header cell, one valid row and one malformed
row, the load aborts with the parser message and the 1-based row number
3. -/
theorem parse_failure_aborts_load_witness :
    loadParametersFromJson
        (fun s => if s = "A" then Except.ok (JValue.obj [("k", JValue.num 1)])
          else Except.error "Unexpected token")
        ["x", "A", "oops"]
      = Except.error "Error parsing JSON at row 3: Unexpected token" := by
  rw [parse_failure_aborts_load
    (fun s => if s = "A" then Except.ok (JValue.obj [("k", JValue.num 1)])
      else Except.error "Unexpected token")
    ["x", "A", "oops"] ["A"] [] "oops" "Unexpected token" rfl
    (by intro c' hc'
        simp only [List.mem_singleton] at hc'
        subst hc'
        exact Or.inr ⟨JValue.obj [("k", JValue.num 1)], rfl⟩)
    (by decide) rfl]
  rfl

/-! ## Claim C2 -/

/-- C2 (amended): if the column-0 cell of the data block is the empty
string or null at row index r (0-based) and at no earlier row, the table
builder returns exactly the r records of the rows before that row,
regardless of anything in or after the terminating row.  (Amendment: a
truly absent column-0 cell reads as undefined, which the strict equality
test of the source does not stop on; the claim as stated fails for such
rows.) -/
theorem table_stops_at_first_blank
    (mapping : List (String × List MPair)) (rows : List (List JValue)) (r : Nat)
    (hr : r < rows.length)
    (hstop : isStopCell (getCell (rows.getD r []) 0) = true)
    (hpre : ∀ i, i < r → isStopCell (getCell (rows.getD i []) 0) = false) :
    buildTable mapping rows = (rows.take r).map (buildRecord mapping)
    ∧ (buildTable mapping rows).length = r := by
  have main : buildTable mapping rows = (rows.take r).map (buildRecord mapping) := by
    induction r generalizing rows with
    | zero =>
      rcases rows with _ | ⟨row, rest⟩
      · simp at hr
      · have h0 : isStopCell (getCell row 0) = true := by simpa using hstop
        show (if isStopCell (getCell row 0) then ([] : List Obj) else _) = _
        rw [if_pos h0]
        simp
    | succ n ih =>
      rcases rows with _ | ⟨row, rest⟩
      · simp at hr
      · have h0 : isStopCell (getCell row 0) = false := by simpa using hpre 0 (Nat.succ_pos n)
        show (if isStopCell (getCell row 0) then ([] : List Obj) else _) = _
        rw [if_neg (by simp [h0])]
        have hr' : n < rest.length := by simpa using Nat.lt_of_succ_lt_succ hr
        have hstop' : isStopCell (getCell (rest.getD n []) 0) = true := by simpa using hstop
        have hpre' : ∀ i, i < n → isStopCell (getCell (rest.getD i []) 0) = false := by
          intro i hi
          simpa using hpre (i + 1) (Nat.succ_lt_succ hi)
        rw [ih rest hr' hstop' hpre']
        simp
  refine ⟨main, ?_⟩
  rw [main]
  simp [Nat.min_eq_left (Nat.le_of_lt hr)]

/-- C2 counterexample: a data row that is an empty array has no column-0
cell at all (it reads as undefined), yet the builder does not stop there:
with the blank at row index 0 the claim demands 0 records, but one record
is produced from the blank row itself. -/
theorem table_stops_at_first_blank_cex :
    buildTable [("g", [⟨JValue.str "A", 0⟩])] [[]] = [[("A", JValue.undefined)]]
    ∧ (buildTable [("g", [⟨JValue.str "A", 0⟩])] [[]]).length ≠ 0 :=
  ⟨rfl, by decide⟩

/-- Witness for C2: a block with one data row, then an empty-string
column-0 cell, then junk, yields exactly the one record before the
blank. -/
theorem table_stops_at_first_blank_witness :
    buildTable [("g", [⟨JValue.str "A", 0⟩])]
        [[JValue.str "x"], [JValue.str ""], [JValue.str "junk"]]
      = ([[JValue.str "x"], [JValue.str ""], [JValue.str "junk"]].take 1).map
          (buildRecord [("g", [⟨JValue.str "A", 0⟩])])
    ∧ (buildTable [("g", [⟨JValue.str "A", 0⟩])]
        [[JValue.str "x"], [JValue.str ""], [JValue.str "junk"]]).length = 1 :=
  table_stops_at_first_blank [("g", [⟨JValue.str "A", 0⟩])]
    [[JValue.str "x"], [JValue.str ""], [JValue.str "junk"]] 1
    (by decide) rfl (by decide)

/-! ## Claim C3 -/

theorem getEntry_buildFold_of_no_writes (row : List JValue)
    (l : List (String × List MPair)) (acc : Obj) (x : String)
    (h : ∀ e ∈ l, writesKey e x = false) :
    getEntry (l.foldl (buildRecordStep row) acc) x = getEntry acc x := by
  induction l generalizing acc with
  | nil => rfl
  | cons e rest ih =>
    rw [List.foldl_cons, ih _ (fun e' he' => h e' (List.mem_cons_of_mem _ he'))]
    obtain ⟨g, ms⟩ := e
    have hw := h (g, ms) (by simp)
    rcases ms with _ | ⟨m, _ | ⟨m2, ms'⟩⟩
    · rfl
    · have hx : jsString m.api ≠ x := by simpa [writesKey] using hw
      show getEntry (setKey acc (jsString m.api) (getCell row m.col)) x = getEntry acc x
      exact getEntry_setKey_ne _ _ _ _ (Ne.symm hx)
    · have hx : g ≠ x := by simpa [writesKey] using hw
      show getEntry (setKey acc g _) x = getEntry acc x
      exact getEntry_setKey_ne _ _ _ _ (Ne.symm hx)

theorem buildFold_inner_setAll (row : List JValue) (ns : List MPair) : ∀ acc : Obj,
    ns.foldl (fun o mm => setKey o (jsString mm.api) (getCell row mm.col)) acc
      = setAll acc (ns.map (fun mm => (jsString mm.api, getCell row mm.col))) := by
  induction ns with
  | nil => intro acc; rfl
  | cons n ns ih =>
    intro acc
    rw [List.foldl_cons, ih, List.map_cons, setAll_cons]

/-- C3 (amended): for a non-terminating row, a grouping key that resolved
to exactly one mapping yields a flat top-level field named by the
stringified object_api_name holding the matched cell, provided no later
group writes that same key; a key that resolved to k >= 2 mappings yields a
nested object under the group key with exactly its k (pairwise distinct)
output fields, provided no later group writes the group key; a key that
resolved to no mapping yields no entry, provided no other group writes the
group key.  (Amendment: JavaScript property assignment is last-writer-wins,
so duplicate output fields inside one group collapse, and colliding keys
across groups overwrite each other; the distinctness provisos are required.) -/
theorem record_nesting_rule
    (l₁ l₂ : List (String × List MPair)) (g : String) (ms : List MPair)
    (row : List JValue) :
    (∀ m, ms = [m] →
      (∀ e ∈ l₂, writesKey e (jsString m.api) = false) →
      getEntry (buildRecord (l₁ ++ (g, ms) :: l₂) row) (jsString m.api)
        = some (getCell row m.col))
    ∧ (2 ≤ ms.length →
        (ms.map (fun m => jsString m.api)).Nodup →
        (∀ e ∈ l₂, writesKey e g = false) →
      getEntry (buildRecord (l₁ ++ (g, ms) :: l₂) row) g
        = some (JValue.obj (ms.map (fun m => (jsString m.api, getCell row m.col)))))
    ∧ (ms = [] →
        (∀ e ∈ l₁ ++ l₂, writesKey e g = false) →
      getEntry (buildRecord (l₁ ++ (g, ms) :: l₂) row) g = none) := by
  refine ⟨?_, ?_, ?_⟩
  · intro m hm hl₂
    subst hm
    unfold buildRecord
    rw [List.foldl_append, List.foldl_cons,
      getEntry_buildFold_of_no_writes row l₂ _ _ hl₂]
    show getEntry (setKey _ (jsString m.api) (getCell row m.col)) (jsString m.api) = _
    exact getEntry_setKey_self _ _ _
  · intro hlen hnd hl₂
    unfold buildRecord
    rw [List.foldl_append, List.foldl_cons,
      getEntry_buildFold_of_no_writes row l₂ _ _ hl₂]
    rcases ms with _ | ⟨m, _ | ⟨m2, ms'⟩⟩
    · simp at hlen
    · simp at hlen
    · show getEntry (setKey _ g (JValue.obj _)) g = _
      rw [getEntry_setKey_self, buildFold_inner_setAll,
        setAll_nil_of_nodup _ (by simpa [List.map_map] using hnd)]
  · intro hms hall
    subst hms
    unfold buildRecord
    rw [List.foldl_append, List.foldl_cons]
    show getEntry (l₂.foldl (buildRecordStep row)
      (l₁.foldl (buildRecordStep row) [])) g = none
    rw [getEntry_buildFold_of_no_writes row l₂ _ _
        (fun e he => hall e (List.mem_append_right _ he)),
      getEntry_buildFold_of_no_writes row l₁ _ _
        (fun e he => hall e (List.mem_append_left _ he))]
    rfl

/-- C3 counterexample: a group that resolved to k = 2 mappings with the
same output field produces a nested object with a single entry (the later
assignment overwrites the earlier one), not exactly k entries. -/
theorem record_nesting_rule_cex :
    buildRecord [("g", [⟨JValue.str "A", 0⟩, ⟨JValue.str "A", 1⟩])]
        [JValue.num 1, JValue.num 2]
      = [("g", JValue.obj [("A", JValue.num 2)])]
    ∧ [("A", JValue.num 2)].length ≠ 2 :=
  ⟨rfl, by decide⟩

/-- Witness for C3: a singleton group yields a flat field with the cell
value, the two-mapping group of the end-to-end scenario yields a nested
two-entry object, and an empty group leaves no entry. -/
theorem record_nesting_rule_witness :
    getEntry (buildRecord [("g1", [⟨JValue.str "A", 0⟩])] [JValue.str "x"]) "A"
      = some (JValue.str "x")
    ∧ getEntry (buildRecord
          [("oli", [⟨JValue.str "Product__c", 0⟩, ⟨JValue.str "Quantity__c", 1⟩])]
          [JValue.str "Widget", JValue.num 10]) "oli"
      = some (JValue.obj
          [("Product__c", JValue.str "Widget"), ("Quantity__c", JValue.num 10)])
    ∧ getEntry (buildRecord [("g", []), ("h", [⟨JValue.str "B", 0⟩])]
          [JValue.str "x"]) "g" = none :=
  ⟨(record_nesting_rule [] [] "g1" [⟨JValue.str "A", 0⟩] [JValue.str "x"]).1
     ⟨JValue.str "A", 0⟩ rfl (by simp),
   (record_nesting_rule [] [] "oli"
      [⟨JValue.str "Product__c", 0⟩, ⟨JValue.str "Quantity__c", 1⟩]
      [JValue.str "Widget", JValue.num 10]).2.1 (by decide) (by decide) (by simp),
   (record_nesting_rule [] [("h", [⟨JValue.str "B", 0⟩])] "g" [] [JValue.str "x"]).2.2
     rfl (by decide)⟩

/-! ## Claim C4 -/

theorem findColAux_some_iff (label : String) : ∀ (l : List JValue) (ofs j : Nat),
    findColAux label l ofs = some j ↔
      ∃ i, i < l.length ∧ j = ofs + i
        ∧ jsTrim (jsString (l.getD i JValue.undefined)) = label
        ∧ ∀ i' < i, jsTrim (jsString (l.getD i' JValue.undefined)) ≠ label := by
  intro l
  induction l with
  | nil =>
    intro ofs j
    simp [findColAux]
  | cons c rest ih =>
    intro ofs j
    by_cases hc : jsTrim (jsString c) = label
    · rw [show findColAux label (c :: rest) ofs = some ofs from by simp [findColAux, hc]]
      constructor
      · intro h
        have hj : ofs = j := by simpa using h
        subst hj
        exact ⟨0, by simp, by simp, by simpa using hc, fun i' hi' => absurd hi' (Nat.not_lt_zero _)⟩
      · rintro ⟨i, hi, hj, hm, hall⟩
        cases i with
        | zero => simp [hj]
        | succ n => exact absurd hc (by simpa using hall 0 (Nat.succ_pos n))
    · rw [show findColAux label (c :: rest) ofs = findColAux label rest (ofs + 1) from by
        simp [findColAux, hc]]
      rw [ih (ofs + 1) j]
      constructor
      · rintro ⟨i, hi, hj, hm, hall⟩
        refine ⟨i + 1, by simpa using Nat.succ_lt_succ hi, by omega, by simpa using hm, ?_⟩
        intro i' hi'
        cases i' with
        | zero => simpa using hc
        | succ n => simpa using hall n (Nat.lt_of_succ_lt_succ hi')
      · rintro ⟨i, hi, hj, hm, hall⟩
        cases i with
        | zero => exact absurd (by simpa using hm) hc
        | succ n =>
          refine ⟨n, by simpa using Nat.lt_of_succ_lt_succ hi, by omega, by simpa using hm, ?_⟩
          intro i' hi'
          simpa using hall (i' + 1) (Nat.succ_lt_succ hi')

theorem findColAux_none_iff (label : String) : ∀ (l : List JValue) (ofs : Nat),
    findColAux label l ofs = none ↔
      ∀ i < l.length, jsTrim (jsString (l.getD i JValue.undefined)) ≠ label := by
  intro l
  induction l with
  | nil =>
    intro ofs
    simp [findColAux]
  | cons c rest ih =>
    intro ofs
    by_cases hc : jsTrim (jsString c) = label
    · rw [show findColAux label (c :: rest) ofs = some ofs from by simp [findColAux, hc]]
      simp only [iff_false_intro (Option.some_ne_none ofs), false_iff]
      push_neg
      exact ⟨0, by simp, by simpa using hc⟩
    · rw [show findColAux label (c :: rest) ofs = findColAux label rest (ofs + 1) from by
        simp [findColAux, hc]]
      rw [ih (ofs + 1)]
      constructor
      · intro h i hi
        cases i with
        | zero => simpa using hc
        | succ n => simpa using h n (by simpa using Nat.lt_of_succ_lt_succ hi)
      · intro h i hi
        simpa using h (i + 1) (Nat.succ_lt_succ hi)

theorem resolveFold_eq (header : List JValue) (gk : String) :
    ∀ (items : List JValue) (acc : List MPair × List String),
    items.foldl (resolveStep header gk) acc
      = (acc.1 ++ items.filterMap (resolveItemPair header),
         acc.2 ++ items.filterMap (warnOf header gk)) := by
  intro items
  induction items with
  | nil =>
    intro acc
    simp
  | cons item rest ih =>
    intro acc
    rw [List.foldl_cons, ih]
    by_cases ht : (truthy (getItemProp item "object_label")
        && truthy (getItemProp item "object_api_name")) = true
    · cases hf : findCol header (jsTrim (jsString (getItemProp item "object_label"))) with
      | some j =>
        simp [resolveStep, resolveItemPair, warnOf, ht, hf, List.filterMap_cons]
      | none =>
        simp [resolveStep, resolveItemPair, warnOf, ht, hf, List.filterMap_cons]
    · have ht' : (truthy (getItemProp item "object_label")
          && truthy (getItemProp item "object_api_name")) = false :=
        Bool.eq_false_iff.2 ht
      simp [resolveStep, resolveItemPair, warnOf, ht', List.filterMap_cons]

theorem buildMapping_eq (params : Obj) (header : List JValue) :
    buildMapping params header
      = (params.filter
          (fun kv => !(kv.1 == "Input Sheet" || kv.1 == "Table Header Row"))).map
          (fun kv => (kv.1, (resolveGroup header kv.1 (normalizeGroup kv.2)).1)) := by
  suffices h : ∀ (ps : Obj) (acc : List (String × List MPair)),
      ps.foldl
          (fun acc kv =>
            if kv.1 == "Input Sheet" || kv.1 == "Table Header Row" then acc
            else acc ++ [(kv.1, (resolveGroup header kv.1 (normalizeGroup kv.2)).1)]) acc
        = acc ++ (ps.filter
            (fun kv => !(kv.1 == "Input Sheet" || kv.1 == "Table Header Row"))).map
            (fun kv => (kv.1, (resolveGroup header kv.1 (normalizeGroup kv.2)).1)) by
    unfold buildMapping
    simpa using h params []
  intro ps
  induction ps with
  | nil =>
    intro acc
    simp
  | cons kv rest ih =>
    intro acc
    rw [List.foldl_cons]
    by_cases hres : (kv.1 == "Input Sheet" || kv.1 == "Table Header Row") = true
    · rw [if_pos hres, ih, List.filter_cons, if_neg (by simp [hres])]
    · have hres' := Bool.eq_false_iff.2 hres
      rw [if_neg (by simp [hres']), ih, List.filter_cons, if_pos (by simp [hres'])]
      simp

/-- C4: the column mapper resolves each group independently: an item with
both fields (truthy) contributes the pair of its verbatim object_api_name
and the index of the first header cell whose stringified trimmed text
equals the trimmed stringified label, scanning left to right; an unmatched
item contributes only a warning and blocks nothing else; and every
non-reserved configuration key is resolved this way in order. -/
theorem column_mapping_resolution
    (header : List JValue) (gk : String) (items : List JValue) (params : Obj) :
    resolveGroup header gk items
      = (items.filterMap (resolveItemPair header), items.filterMap (warnOf header gk))
    ∧ buildMapping params header
      = (params.filter
          (fun kv => !(kv.1 == "Input Sheet" || kv.1 == "Table Header Row"))).map
          (fun kv => (kv.1, (resolveGroup header kv.1 (normalizeGroup kv.2)).1))
    ∧ (∀ (label : String) (j : Nat),
        findCol header label = some j ↔
          j < header.length ∧ jsTrim (jsString (header.getD j JValue.undefined)) = label
            ∧ ∀ i < j, jsTrim (jsString (header.getD i JValue.undefined)) ≠ label)
    ∧ (∀ label : String,
        findCol header label = none ↔
          ∀ i < header.length, jsTrim (jsString (header.getD i JValue.undefined)) ≠ label) := by
  refine ⟨?_, buildMapping_eq params header, ?_, ?_⟩
  · unfold resolveGroup
    simpa using resolveFold_eq header gk items ([], [])
  · intro label j
    rw [show findCol header label = findColAux label header 0 from rfl,
      findColAux_some_iff label header 0 j]
    constructor
    · rintro ⟨i, hi, hj, hm, hall⟩
      have : j = i := by omega
      subst this
      exact ⟨hi, hm, hall⟩
    · rintro ⟨hj, hm, hall⟩
      exact ⟨j, hj, by omega, hm, hall⟩
  · intro label
    exact findColAux_none_iff label header 0

/-- Witness for C4: against the header [" A ", "B"], a matching item
resolves to column 1, an unmatched label yields only a warning, label "A"
matches the trimmed first cell, label "Q" matches nothing, and a reserved
key is excluded from the overall mapping. -/
theorem column_mapping_resolution_witness :
    resolveGroup [JValue.str " A ", JValue.str "B"] "g"
        [JValue.obj [("object_label", JValue.str "B"), ("object_api_name", JValue.str "X__c")],
         JValue.obj [("object_label", JValue.str "Z"), ("object_api_name", JValue.str "Y__c")]]
      = ([⟨JValue.str "X__c", 1⟩], ["Warning: Header label Z for group g not found."])
    ∧ findCol [JValue.str " A ", JValue.str "B"] "A" = some 0
    ∧ findCol [JValue.str " A ", JValue.str "B"] "Q" = none
    ∧ buildMapping
        [("Input Sheet", JValue.obj [("Name", JValue.str "S")]),
         ("g", JValue.obj [("object_label", JValue.str "B"),
            ("object_api_name", JValue.str "X__c")])]
        [JValue.str " A ", JValue.str "B"]
      = [("g", [⟨JValue.str "X__c", 1⟩])] :=
  ⟨(column_mapping_resolution [JValue.str " A ", JValue.str "B"] "g"
      [JValue.obj [("object_label", JValue.str "B"), ("object_api_name", JValue.str "X__c")],
       JValue.obj [("object_label", JValue.str "Z"), ("object_api_name", JValue.str "Y__c")]]
      []).1,
   ((column_mapping_resolution [JValue.str " A ", JValue.str "B"] "g" [] []).2.2.1
      "A" 0).mpr (by decide),
   ((column_mapping_resolution [JValue.str " A ", JValue.str "B"] "g" [] []).2.2.2
      "Q").mpr (by decide),
   ((column_mapping_resolution [JValue.str " A ", JValue.str "B"] "g" []
      [("Input Sheet", JValue.obj [("Name", JValue.str "S")]),
       ("g", JValue.obj [("object_label", JValue.str "B"),
          ("object_api_name", JValue.str "X__c")])]).2.1).trans rfl⟩

/-! ## Claim C9 -/

/-- C9: an item whose object_label or object_api_name is falsy (empty
string, 0, false, null, or absent) is skipped by the mapping loop before
the header scan: it contributes neither a mapping pair nor a warning, and
the surrounding items resolve exactly as if it were not there. -/
theorem falsy_mapping_entry_skipped
    (header : List JValue) (gk : String) (l₁ l₂ : List JValue) (item : JValue)
    (h : truthy (getItemProp item "object_label") = false
       ∨ truthy (getItemProp item "object_api_name") = false) :
    resolveGroup header gk (l₁ ++ item :: l₂) = resolveGroup header gk (l₁ ++ l₂) := by
  unfold resolveGroup
  rw [List.foldl_append, List.foldl_cons, List.foldl_append]
  have hstep : ∀ A, resolveStep header gk A item = A := by
    intro A
    unfold resolveStep
    rcases h with h | h <;> rw [h] <;> simp
  rw [hstep]

/-- Witness for C9: items with an empty-string label, a 0 label, a false
label and a null api name are all invisible to the mapper: the group
resolves exactly as with only its one well-formed item. -/
theorem falsy_mapping_entry_skipped_witness :
    resolveGroup [JValue.str "A"] "g"
        [JValue.obj [("object_label", JValue.str ""), ("object_api_name", JValue.str "W")],
         JValue.obj [("object_label", JValue.num 0), ("object_api_name", JValue.str "X")],
         JValue.obj [("object_label", JValue.boolv false), ("object_api_name", JValue.str "Y")],
         JValue.obj [("object_label", JValue.str "A"), ("object_api_name", JValue.nullv)],
         JValue.obj [("object_label", JValue.str "A"), ("object_api_name", JValue.str "Z")]]
      = resolveGroup [JValue.str "A"] "g"
          [JValue.obj [("object_label", JValue.str "A"), ("object_api_name", JValue.str "Z")]] :=
  Eq.trans
    (falsy_mapping_entry_skipped [JValue.str "A"] "g" []
      [JValue.obj [("object_label", JValue.num 0), ("object_api_name", JValue.str "X")],
       JValue.obj [("object_label", JValue.boolv false), ("object_api_name", JValue.str "Y")],
       JValue.obj [("object_label", JValue.str "A"), ("object_api_name", JValue.nullv)],
       JValue.obj [("object_label", JValue.str "A"), ("object_api_name", JValue.str "Z")]]
      (JValue.obj [("object_label", JValue.str ""), ("object_api_name", JValue.str "W")])
      (Or.inl rfl))
    (Eq.trans
      (falsy_mapping_entry_skipped [JValue.str "A"] "g" []
        [JValue.obj [("object_label", JValue.boolv false), ("object_api_name", JValue.str "Y")],
         JValue.obj [("object_label", JValue.str "A"), ("object_api_name", JValue.nullv)],
         JValue.obj [("object_label", JValue.str "A"), ("object_api_name", JValue.str "Z")]]
        (JValue.obj [("object_label", JValue.num 0), ("object_api_name", JValue.str "X")])
        (Or.inl rfl))
      (Eq.trans
        (falsy_mapping_entry_skipped [JValue.str "A"] "g" []
          [JValue.obj [("object_label", JValue.str "A"), ("object_api_name", JValue.nullv)],
           JValue.obj [("object_label", JValue.str "A"), ("object_api_name", JValue.str "Z")]]
          (JValue.obj [("object_label", JValue.boolv false), ("object_api_name", JValue.str "Y")])
          (Or.inl rfl))
        (falsy_mapping_entry_skipped [JValue.str "A"] "g" []
          [JValue.obj [("object_label", JValue.str "A"), ("object_api_name", JValue.str "Z")]]
          (JValue.obj [("object_label", JValue.str "A"), ("object_api_name", JValue.nullv)])
          (Or.inr rfl))))

/-! ## Claim C7 -/

theorem flattenFold_scalar (r : Obj) : ∀ acc : Obj, scalarOnly r →
    r.foldl flattenStep acc = setAll acc r := by
  induction r with
  | nil =>
    intro acc _
    rfl
  | cons kv rest ih =>
    intro acc hs
    have hkv : isObjectLike kv.2 = false := hs kv (by simp)
    rw [List.foldl_cons, setAll_cons,
      show flattenStep acc kv = setKey acc kv.1 kv.2 from by simp [flattenStep, hkv]]
    exact ih _ (fun x hx => hs x (List.mem_cons_of_mem _ hx))

theorem nodup_keys_flattenFold (r : Obj) : ∀ acc : Obj, (acc.map Prod.fst).Nodup →
    ((r.foldl flattenStep acc).map Prod.fst).Nodup := by
  induction r with
  | nil =>
    intro acc h
    exact h
  | cons kv rest ih =>
    intro acc h
    rw [List.foldl_cons]
    apply ih
    unfold flattenStep
    by_cases ho : isObjectLike kv.2 = true
    · rw [if_pos ho]
      exact nodup_keys_setAll _ _ h
    · rw [if_neg ho]
      exact nodup_keys_setKey _ _ _ h

theorem nodup_keys_flattenRecord (r : Obj) :
    ((flattenRecord r).map Prod.fst).Nodup :=
  nodup_keys_flattenFold r [] (by simp)

theorem scalarOnly_flattenRecord (r : Obj) (h : scalarOnly r) :
    scalarOnly (flattenRecord r) := by
  intro kv hkv
  unfold flattenRecord at hkv
  rw [flattenFold_scalar r [] h] at hkv
  rcases mem_setAll _ _ _ hkv with h' | h'
  · simp at h'
  · exact h _ h'

theorem flattenRecord_of_scalar_nodup (r : Obj) (h : scalarOnly r)
    (hnd : (r.map Prod.fst).Nodup) : flattenRecord r = r := by
  unfold flattenRecord
  rw [flattenFold_scalar r [] h, setAll_nil_of_nodup _ hnd]

/-- C7: flattening (formatOLIs) is idempotent on records with no nested
objects: applying the flattening transform twice equals applying it
once. -/
theorem flatten_idempotent_on_flat (l : List Obj) (h : ∀ r ∈ l, scalarOnly r) :
    formatOLIs (formatOLIs l) = formatOLIs l := by
  unfold formatOLIs
  rw [List.map_map]
  apply List.map_congr_left
  intro r hr
  show flattenRecord (flattenRecord r) = flattenRecord r
  exact flattenRecord_of_scalar_nodup _ (scalarOnly_flattenRecord r (h r hr))
    (nodup_keys_flattenRecord r)

/-- Witness for C7: two flat records are unchanged by a second
flattening. -/
theorem flatten_idempotent_on_flat_witness :
    formatOLIs (formatOLIs
        [[("a", JValue.num 1)], [("b", JValue.str "x"), ("c", JValue.nullv)]])
      = formatOLIs [[("a", JValue.num 1)], [("b", JValue.str "x"), ("c", JValue.nullv)]] :=
  flatten_idempotent_on_flat
    [[("a", JValue.num 1)], [("b", JValue.str "x"), ("c", JValue.nullv)]]
    (by simp only [scalarOnly]; decide)

/-! ## Claim C10 -/

/-- C10: when the max-revision query returns a first record whose
Version_Number__c is null, undefined (absent), or 0, the local logic of
getHighestRevisionNumber returns 0 — the same value as for an empty
response — so the computed next revision is 0 + 1 = 1 even though line
items exist for the parent. -/
theorem null_revision_treated_as_zero
    (rec : Obj) (rest : List Obj)
    (h : getProp rec "Version_Number__c" = JValue.nullv
       ∨ getProp rec "Version_Number__c" = JValue.undefined
       ∨ getProp rec "Version_Number__c" = JValue.num 0) :
    getHighestRevisionNumber (rec :: rest) = JValue.num 0
    ∧ getHighestRevisionNumber (rec :: rest) = getHighestRevisionNumber []
    ∧ jsAdd (getHighestRevisionNumber (rec :: rest)) (JValue.num 1) = JValue.num 1 := by
  have hf : truthy (getProp rec "Version_Number__c") = false := by
    rcases h with h | h | h <;> rw [h] <;> simp [truthy]
  have h0 : getHighestRevisionNumber (rec :: rest) = JValue.num 0 := by
    show (if truthy (getProp rec "Version_Number__c")
      then getProp rec "Version_Number__c" else JValue.num 0) = JValue.num 0
    rw [if_neg (by simp [hf])]
  refine ⟨h0, by rw [h0]; rfl, ?_⟩
  rw [h0]
  show JValue.num (0 + 1) = JValue.num 1
  norm_num

/-- Witness for C10: a response whose first record carries a null
Version_Number__c while line items exist yields highest revision 0 and
next revision 1. -/
theorem null_revision_treated_as_zero_witness :
    getHighestRevisionNumber [[("Version_Number__c", JValue.nullv)],
        [("Version_Number__c", JValue.num 4)]] = JValue.num 0
    ∧ getHighestRevisionNumber [[("Version_Number__c", JValue.nullv)],
        [("Version_Number__c", JValue.num 4)]] = getHighestRevisionNumber []
    ∧ jsAdd (getHighestRevisionNumber [[("Version_Number__c", JValue.nullv)],
        [("Version_Number__c", JValue.num 4)]]) (JValue.num 1) = JValue.num 1 :=
  null_revision_treated_as_zero [("Version_Number__c", JValue.nullv)]
    [[("Version_Number__c", JValue.num 4)]] (Or.inl rfl)

/-! ## Claim C6 -/

/-- C6: every record transmitted by createLineItems carries a
Sales_Discount__c equal to 100 times the value that field had on the record
as built, the rescaling being applied exactly once, in the transmission
mapping itself. -/
theorem discount_rescaled_once
    (oppIdV : JValue) (lineItems : List Obj) (item : Obj) (d : ℚ)
    (hmem : item ∈ lineItems)
    (hnd : (item.map Prod.fst).Nodup)
    (hd : getEntry item "Sales_Discount__c" = some (JValue.num d)) :
    createLineItemsRecords oppIdV lineItems = lineItems.map (transmitRecord oppIdV)
    ∧ getEntry (transmitRecord oppIdV item) "Sales_Discount__c"
        = some (JValue.num (100 * d))
    ∧ transmitRecord oppIdV item ∈ createLineItemsRecords oppIdV lineItems := by
  refine ⟨rfl, ?_, List.mem_map.2 ⟨item, hmem, rfl⟩⟩
  unfold transmitRecord
  have h1 : getEntry (setKey item "opportunity_id__c" oppIdV) "Sales_Discount__c"
      = some (JValue.num d) := by
    rw [getEntry_setKey_ne _ _ _ _ (by decide)]
    exact hd
  have hprop : getProp (setKey item "opportunity_id__c" oppIdV) "Sales_Discount__c"
      = JValue.num d := by
    unfold getProp
    rw [h1]
    rfl
  rw [hprop]
  rw [show jsMul (JValue.num 100) (JValue.num d) = JValue.num (100 * d) from rfl]
  apply getEntry_setAll_of_mem
  · exact nodup_keys_setKey _ _ _ (nodup_keys_setKey _ _ _ hnd)
  · exact getEntry_setKey_self _ _ _

/-- Witness for C6: a record built with a discount of 2 is transmitted with
discount 100 * 2, through the createLineItems batch mapping. -/
theorem discount_rescaled_once_witness :
    getEntry (transmitRecord (JValue.str "p") [("Sales_Discount__c", JValue.num 2)])
        "Sales_Discount__c" = some (JValue.num (100 * 2))
    ∧ createLineItemsRecords (JValue.str "p") [[("Sales_Discount__c", JValue.num 2)]]
        = [[("Sales_Discount__c", JValue.num 2)]].map (transmitRecord (JValue.str "p")) :=
  ⟨(discount_rescaled_once (JValue.str "p") [[("Sales_Discount__c", JValue.num 2)]]
      [("Sales_Discount__c", JValue.num 2)] 2 (by simp) (by decide) rfl).2.1,
   (discount_rescaled_once (JValue.str "p") [[("Sales_Discount__c", JValue.num 2)]]
      [("Sales_Discount__c", JValue.num 2)] 2 (by simp) (by decide) rfl).1⟩

/-! ## Claim C5 -/

theorem hoistedKeys_cons (kv : String × JValue) (rest : Obj) :
    hoistedKeys (kv :: rest)
      = (if isObjectLike kv.2 then (enumPairs kv.2).map Prod.fst else [])
        ++ hoistedKeys rest := rfl

theorem getEntry_flattenFold_skip (k : String) : ∀ (l : Obj) (acc : Obj),
    k ∉ l.map Prod.fst → k ∉ hoistedKeys l →
    getEntry (l.foldl flattenStep acc) k = getEntry acc k := by
  intro l
  induction l with
  | nil =>
    intro acc _ _
    rfl
  | cons kv rest ih =>
    intro acc hk hh
    simp only [List.map_cons, List.mem_cons] at hk
    push_neg at hk
    rw [hoistedKeys_cons, List.mem_append] at hh
    push_neg at hh
    rw [List.foldl_cons, ih _ hk.2 hh.2]
    unfold flattenStep
    by_cases ho : isObjectLike kv.2 = true
    · rw [if_pos ho]
      apply getEntry_setAll_of_not_mem
      have := hh.1
      rw [if_pos ho] at this
      exact this
    · rw [if_neg ho]
      exact getEntry_setKey_ne _ _ _ _ hk.1

theorem getEntry_flattenRecord_preserve (r : Obj) (k : String) (v : JValue)
    (hnd : (r.map Prod.fst).Nodup) (hv : getEntry r k = some v)
    (hs : isObjectLike v = false) (hk : k ∉ hoistedKeys r) :
    getEntry (flattenRecord r) k = some v := by
  suffices main : ∀ (l : Obj) (acc : Obj), (l.map Prod.fst).Nodup →
      getEntry l k = some v → k ∉ hoistedKeys l →
      getEntry (l.foldl flattenStep acc) k = some v from
    main r [] hnd hv hk
  intro l
  induction l with
  | nil =>
    intro acc _ hv' _
    simp [getEntry] at hv'
  | cons kv rest ih =>
    intro acc hnd' hv' hk'
    obtain ⟨a, w⟩ := kv
    simp only [List.map_cons, List.nodup_cons] at hnd'
    rw [hoistedKeys_cons, List.mem_append] at hk'
    push_neg at hk'
    by_cases ha : a = k
    · have ha' : k = a := ha.symm
      subst ha'
      rw [getEntry_cons_self] at hv'
      have hw : v = w := (Option.some.inj hv').symm
      subst hw
      rw [List.foldl_cons, getEntry_flattenFold_skip k rest _ hnd'.1 hk'.2]
      show getEntry (flattenStep acc (k, v)) k = some v
      unfold flattenStep
      rw [if_neg (by simp [hs])]
      exact getEntry_setKey_self _ _ _
    · rw [getEntry_cons_ne _ _ _ _ ha] at hv'
      rw [List.foldl_cons]
      exact ih _ hnd'.2 hv' hk'.2

theorem foldl_max_eq (xs : List ℚ) : ∀ (a M : ℚ), (a = M ∨ M ∈ xs) → a ≤ M →
    (∀ x ∈ xs, x ≤ M) → xs.foldl max a = M := by
  induction xs with
  | nil =>
    intro a M h _ _
    rcases h with h | h
    · exact h
    · simp at h
  | cons x rest ih =>
    intro a M h ha hub
    have hx : x ≤ M := hub x (by simp)
    rw [List.foldl_cons]
    rcases h with h | h
    · subst h
      exact ih (max a x) a (Or.inl (max_eq_left hx)) (max_le le_rfl hx)
        (fun y hy => hub y (List.mem_cons_of_mem _ hy))
    · rcases List.mem_cons.1 h with h | h
      · exact ih (max a x) M (Or.inl (by rw [h]; exact max_eq_right (h ▸ ha))) (max_le ha hx)
          (fun y hy => hub y (List.mem_cons_of_mem _ hy))
      · exact ih (max a x) M (Or.inr h) (max_le ha hx)
          (fun y hy => hub y (List.mem_cons_of_mem _ hy))

theorem getHighestRevisionNumber_single (V : ℚ) (hV : V ≠ 0) :
    getHighestRevisionNumber [[("Version_Number__c", JValue.num V)]] = JValue.num V := by
  show (if truthy (getProp [("Version_Number__c", JValue.num V)] "Version_Number__c")
    then getProp [("Version_Number__c", JValue.num V)] "Version_Number__c"
    else JValue.num 0) = JValue.num V
  rw [show getProp [("Version_Number__c", JValue.num V)] "Version_Number__c"
    = JValue.num V from rfl]
  rw [if_pos (by simp [truthy, hV])]

/-- C5 (amended): the new revision is the highest existing revision for
the parent plus one — 1 when the parent has no line items at all, M + 1
when the revisions present are positive with maximum M (in particular 6
when the maximum is 5) — and every record submitted through the
stamp/flatten/transmit pipeline carries that revision, Active__c = true and
the parent id, provided the built record has distinct keys and its nested
groups do not themselves contain the stamped field names.  (Amendment: the
provisos are required — stamping updates an existing Active__c or
Version_Number__c key in place, keeping its insertion position, so a later
nested group that also maps one of those field names overwrites the stamped
value when formatOLIs hoists it, and the submitted record then carries the
cell value instead; see the counterexample.) -/
theorem revision_computation_and_stamping
    (store : List StoreRec) (oppId : String) (M : ℚ)
    (r : Obj) (oppIdV rev : JValue) :
    (store.filter (fun s => s.parent == oppId) = [] →
      nextRevision store oppId = JValue.num 1)
    ∧ (M ∈ (store.filter (fun s => s.parent == oppId)).map StoreRec.version →
       (∀ s ∈ store.filter (fun s => s.parent == oppId), s.version ≤ M) →
       1 ≤ M →
       nextRevision store oppId = JValue.num (M + 1))
    ∧ ((r.map Prod.fst).Nodup →
       isObjectLike rev = false →
       "Active__c" ∉ hoistedKeys (stampRecord r oppIdV rev) →
       "Version_Number__c" ∉ hoistedKeys (stampRecord r oppIdV rev) →
       getEntry (submitRecord oppIdV rev r) "Active__c" = some (JValue.boolv true)
       ∧ getEntry (submitRecord oppIdV rev r) "Version_Number__c" = some rev
       ∧ getEntry (submitRecord oppIdV rev r) "opportunity_id__c" = some oppIdV) := by
  refine ⟨?_, ?_, ?_⟩
  · intro hfil
    unfold nextRevision getHighestRevisionFromStore maxRevisionResponse
    rw [hfil]
    show JValue.num (0 + 1) = JValue.num 1
    norm_num
  · intro hM hub hM1
    rcases hfil : store.filter (fun s => s.parent == oppId) with _ | ⟨m0, ms⟩
    · rw [hfil] at hM
      simp at hM
    · rw [hfil] at hM hub
      have hV : ms.foldl (fun a s => max a s.version) m0.version = M := by
        rw [show ms.foldl (fun a s => max a s.version) m0.version
            = (ms.map StoreRec.version).foldl max m0.version from
          (List.foldl_map StoreRec.version max ms m0.version).symm]
        apply foldl_max_eq
        · simp only [List.map_cons, List.mem_cons] at hM
          rcases hM with h | h
          · exact Or.inl h.symm
          · exact Or.inr h
        · exact hub m0 (by simp)
        · intro x hx
          rcases List.mem_map.1 hx with ⟨s, hs, rfl⟩
          exact hub s (List.mem_cons_of_mem _ hs)
      have hne : M ≠ 0 := by
        intro h
        rw [h] at hM1
        norm_num at hM1
      unfold nextRevision getHighestRevisionFromStore maxRevisionResponse
      rw [hfil]
      show jsAdd (getHighestRevisionNumber
        [[("Version_Number__c",
            JValue.num (ms.foldl (fun a s => max a s.version) m0.version))]])
        (JValue.num 1) = JValue.num (M + 1)
      rw [hV, getHighestRevisionNumber_single M hne]
      rfl
  · intro hnd hrevscalar hA hV
    have hndrs : ((stampRecord r oppIdV rev).map Prod.fst).Nodup := by
      unfold stampRecord
      exact nodup_keys_setKey _ _ _ (nodup_keys_setKey _ _ _ (nodup_keys_setKey _ _ _ hnd))
    have hgA : getEntry (stampRecord r oppIdV rev) "Active__c"
        = some (JValue.boolv true) := by
      unfold stampRecord
      rw [getEntry_setKey_ne _ _ _ _ (by decide)]
      exact getEntry_setKey_self _ _ _
    have hgV : getEntry (stampRecord r oppIdV rev) "Version_Number__c" = some rev := by
      unfold stampRecord
      exact getEntry_setKey_self _ _ _
    have hfA : getEntry (flattenRecord (stampRecord r oppIdV rev)) "Active__c"
        = some (JValue.boolv true) :=
      getEntry_flattenRecord_preserve _ _ _ hndrs hgA rfl hA
    have hfV : getEntry (flattenRecord (stampRecord r oppIdV rev)) "Version_Number__c"
        = some rev :=
      getEntry_flattenRecord_preserve _ _ _ hndrs hgV hrevscalar hV
    have hfnd : ((flattenRecord (stampRecord r oppIdV rev)).map Prod.fst).Nodup :=
      nodup_keys_flattenRecord _
    unfold submitRecord transmitRecord
    refine ⟨?_, ?_, ?_⟩
    · apply getEntry_setAll_of_mem
      · exact nodup_keys_setKey _ _ _ (nodup_keys_setKey _ _ _ hfnd)
      · rw [getEntry_setKey_ne _ _ _ _ (by decide), getEntry_setKey_ne _ _ _ _ (by decide)]
        exact hfA
    · apply getEntry_setAll_of_mem
      · exact nodup_keys_setKey _ _ _ (nodup_keys_setKey _ _ _ hfnd)
      · rw [getEntry_setKey_ne _ _ _ _ (by decide), getEntry_setKey_ne _ _ _ _ (by decide)]
        exact hfV
    · apply getEntry_setAll_of_mem
      · exact nodup_keys_setKey _ _ _ (nodup_keys_setKey _ _ _ hfnd)
      · rw [getEntry_setKey_ne _ _ _ _ (by decide)]
        exact getEntry_setKey_self _ _ _

/-- Witness for C5: an empty store yields revision 1; a store whose
revisions for the parent are 5 and 3 yields revision 5 + 1; and the
end-to-end scenario record, stamped with revision 6, is submitted with
Version_Number__c = 6, Active__c = true and the parent id. -/
theorem revision_computation_and_stamping_witness :
    nextRevision [] "p" = JValue.num 1
    ∧ nextRevision [⟨"p", 5⟩, ⟨"q", 9⟩, ⟨"p", 3⟩] "p" = JValue.num (5 + 1)
    ∧ (getEntry (submitRecord (JValue.str "p") (JValue.num 6)
          [("oli", JValue.obj [("Product__c", JValue.str "Widget"),
            ("Quantity__c", JValue.num 10)])]) "Active__c" = some (JValue.boolv true)
       ∧ getEntry (submitRecord (JValue.str "p") (JValue.num 6)
          [("oli", JValue.obj [("Product__c", JValue.str "Widget"),
            ("Quantity__c", JValue.num 10)])]) "Version_Number__c"
          = some (JValue.num 6)
       ∧ getEntry (submitRecord (JValue.str "p") (JValue.num 6)
          [("oli", JValue.obj [("Product__c", JValue.str "Widget"),
            ("Quantity__c", JValue.num 10)])]) "opportunity_id__c"
          = some (JValue.str "p")) :=
  ⟨(revision_computation_and_stamping [] "p" 1 [] JValue.undefined JValue.undefined).1 rfl,
   (revision_computation_and_stamping [⟨"p", 5⟩, ⟨"q", 9⟩, ⟨"p", 3⟩] "p" 5 []
      JValue.undefined JValue.undefined).2.1 (by decide) (by decide) (by norm_num),
   (revision_computation_and_stamping [] "p" 1
      [("oli", JValue.obj [("Product__c", JValue.str "Widget"),
        ("Quantity__c", JValue.num 10)])]
      (JValue.str "p") (JValue.num 6)).2.2 (by decide) rfl (by decide) (by decide)⟩

/-- C5 counterexample: the claim as stated fails on a reachable run.  A
configuration whose first group is a singleton mapping column 0 to the api
name Active__c and whose second group also maps a column to Active__c
builds the record here from the row [a0, a1, 2]; stamping sets Active__c to
true in place (keeping its position before the nested group), flattening
then hoists the nested Active__c over it, and createLineItems re-sets only
opportunity_id__c and the discount — so the record submitted for this run
carries Active__c = a1 (the cell value), not true. -/
theorem revision_computation_and_stamping_cex :
    buildRecord
        [("g1", [⟨JValue.str "Active__c", 0⟩]),
         ("g2", [⟨JValue.str "Active__c", 1⟩, ⟨JValue.str "B", 2⟩])]
        [JValue.str "a0", JValue.str "a1", JValue.num 2]
      = [("Active__c", JValue.str "a0"),
         ("g2", JValue.obj [("Active__c", JValue.str "a1"), ("B", JValue.num 2)])]
    ∧ getEntry (submitRecord (JValue.str "p") (nextRevision [] "p")
        [("Active__c", JValue.str "a0"),
         ("g2", JValue.obj [("Active__c", JValue.str "a1"), ("B", JValue.num 2)])])
        "Active__c" = some (JValue.str "a1")
    ∧ JValue.str "a1" ≠ JValue.boolv true :=
  ⟨rfl, rfl, by simp⟩

end AppScript
